import Mathlib

/-!
Shallow embedding of the workflow-graph core of `architecture_analyzer.py`:
the functions `validate_yaml_fields`, `analyze_file` (its classification part)
and `_build_workflow_data`, together with theorems settling the frozen claims
about them.

Modelling conventions:
* A YAML scalar of a frontmatter field is `YVal`: absent from the mapping,
  present with value `None`, or present with a string value.  The spec's data
  model declares the workflow-relevant fields to be strings, so non-string
  scalars are outside the modelled domain.
* A parsed frontmatter mapping is restricted to the ten required keys (other
  keys are never read by the analysed functions).
* Python truthiness of an optional string (`None` and `""` falsy) is `truthy`;
  truthiness of a frontmatter mapping (`None` and `{}` falsy) is `fmTruthy`.
* Python's float division in the completion rate is modelled with `ℚ`
  (the inputs are small naturals, where float division is exact enough for
  the claims, which only concern `0` and `100`).
-/

/-- A YAML field value: absent from the mapping, explicit `None`,
or a string scalar. -/
inductive YVal where
  | absent
  | null
  | str (s : String)
deriving DecidableEq, Repr

/-- A parsed frontmatter mapping, restricted to the ten required keys of
`REQUIRED_YAML_FIELDS`. -/
structure Yaml where
  phase : YVal
  step : YVal
  task : YVal
  task_id : YVal
  title : YVal
  previous_task : YVal
  next_task : YVal
  version : YVal
  agent : YVal
  orchestrator : YVal
deriving DecidableEq, Repr

/-- `ArchitectureAnalyzer.REQUIRED_YAML_FIELDS`. -/
def REQUIRED_YAML_FIELDS : List String :=
  ["phase", "step", "task", "task_id", "title",
   "previous_task", "next_task", "version", "agent", "orchestrator"]

/-- The field list of a frontmatter mapping, in the iteration order of
`REQUIRED_YAML_FIELDS`. -/
def Yaml.fields (y : Yaml) : List (String × YVal) :=
  [("phase", y.phase), ("step", y.step), ("task", y.task),
   ("task_id", y.task_id), ("title", y.title),
   ("previous_task", y.previous_task), ("next_task", y.next_task),
   ("version", y.version), ("agent", y.agent),
   ("orchestrator", y.orchestrator)]

/-- A mapping with every key absent: the Python empty dict `\x7b\x7d`. -/
def Yaml.emptyDict : Yaml :=
  ⟨.absent, .absent, .absent, .absent, .absent,
   .absent, .absent, .absent, .absent, .absent⟩

/-- Python falsiness of the frontmatter mapping (`not yaml_data` on a dict):
true exactly on the empty dict. -/
def Yaml.isEmptyDict (y : Yaml) : Bool := y == Yaml.emptyDict

/-- `field not in yaml_data or yaml_data[field] is None`. -/
def fieldMissing (v : YVal) : Bool := v == .absent || v == .null

/-- `ArchitectureAnalyzer.validate_yaml_fields`: the list of required fields
that are absent or `None`. -/
def validate_yaml_fields (yaml_data : Option Yaml) : List String :=
  match yaml_data with
  | none => REQUIRED_YAML_FIELDS
  | some y =>
    if y.isEmptyDict then REQUIRED_YAML_FIELDS
    else (y.fields.filter (fun f => fieldMissing f.2)).map (fun f => f.1)

/-- The fields of `FileAnalysis` that the workflow core reads, produced by
`analyze_file` (headers are carried but never read by the core). -/
structure FileData where
  filename : String
  yaml_frontmatter : Option Yaml
  headers : List String
  yaml_valid : Bool
  yaml_errors : List String
  missing_required_fields : List String
deriving DecidableEq, Repr

/-- The classification part of `ArchitectureAnalyzer.analyze_file`: given the
outcome of `extract_yaml_frontmatter` (`yaml_data`, `yaml_errors`), it
validates the fields and sets `yaml_valid` iff there are no parse errors and
no missing required fields. -/
def analyze_file (filename : String) (headers : List String)
    (yaml_data : Option Yaml) (yaml_errors : List String) : FileData :=
  { filename := filename
    yaml_frontmatter := yaml_data
    headers := headers
    yaml_valid := yaml_errors.isEmpty && (validate_yaml_fields yaml_data).isEmpty
    yaml_errors := yaml_errors
    missing_required_fields := validate_yaml_fields yaml_data }

/-- Python truthiness of an optional string: `None` and `""` are falsy. -/
def truthy : Option String → Bool
  | none => false
  | some s => s ≠ ""

/-- Python truthiness of the optional frontmatter mapping
(`not file_data['yaml_frontmatter']`): `None` and `\x7b\x7d` are falsy. -/
def fmTruthy : Option Yaml → Bool
  | none => false
  | some y => !y.isEmptyDict

/-- `yaml_data.get(key, default)`: the present value (possibly `None`),
or the default when the key is absent. -/
def YVal.toGet (v : YVal) (dflt : Option String) : Option String :=
  match v with
  | .absent => dflt
  | .null => none
  | .str s => some s

/-- `s.startswith(p)`: the characters of `p` are a prefix of those of `s`. -/
def strStartsWith (s p : String) : Bool := p.data.isPrefixOf s.data

/-- `x.startswith(p)` on an optional string.  In the source this is reached
only behind a short-circuit that guarantees the value is a non-empty string,
so the `none` branch is never observed. -/
def startsWithOpt (v : Option String) (p : String) : Bool :=
  match v with
  | none => false
  | some s => strStartsWith s p

/-- The `task_info` dict built at the top of `_build_workflow_data`. -/
structure TaskInfo where
  filename : String
  task_id : Option String
  title : Option String
  phase : Option String
  step : Option String
  agent : Option String
  previous_task : Option String
  next_task : Option String
  valid : Bool
deriving DecidableEq, Repr

/-- Lines 416–426 of `_build_workflow_data`: extract the task info from a
file's frontmatter, defaulting display fields to `"Unknown"` when the key is
absent and references to `None`. -/
def mkTaskInfo (fd : FileData) (y : Yaml) : TaskInfo :=
  { filename := fd.filename
    task_id := y.task_id.toGet (some "Unknown")
    title := y.title.toGet (some "Unknown")
    phase := y.phase.toGet (some "Unknown")
    step := y.step.toGet (some "Unknown")
    agent := y.agent.toGet (some "Unknown")
    previous_task := y.previous_task.toGet none
    next_task := y.next_task.toGet none
    valid := fd.yaml_valid }

/-- The phase mapping: a key-ordered association list mirroring the Python
dict `phases` (insertion order, unique keys). -/
abbrev Phases := List (Option String × List TaskInfo)

/-- `phases[phase].append(task_info)` with `phases[phase] = []` on a missing
key: append to the entry of the key, or append a new singleton entry. -/
def addToPhases : Phases → Option String → TaskInfo → Phases
  | [], k, t => [(k, [t])]
  | p :: ps, k, t =>
    if p.1 = k then (p.1, p.2 ++ [t]) :: ps else p :: addToPhases ps k t

/-- Accumulator of the first loop of `_build_workflow_data`. -/
structure BuildAcc where
  phases : Phases
  valid_tasks : Nat
  connected_tasks : Nat
deriving DecidableEq, Repr

/-- One iteration of the first loop of `_build_workflow_data`: skip the file
unless `yaml_valid` and the frontmatter are both truthy, otherwise count it
as valid/connected and group it by phase. -/
def processFile (acc : BuildAcc) (fd : FileData) : BuildAcc :=
  match fd.yaml_frontmatter with
  | none => acc
  | some y =>
    if !fd.yaml_valid || y.isEmptyDict then acc
    else
      let t := mkTaskInfo fd y
      { phases := addToPhases acc.phases t.phase t
        valid_tasks := acc.valid_tasks + (if t.valid then 1 else 0)
        connected_tasks := acc.connected_tasks +
          (if truthy t.previous_task || truthy t.next_task then 1 else 0) }

/-- The entry filter of the loop: a file participates in the graph iff
`yaml_valid` is true and the frontmatter is truthy (present and non-empty). -/
def admitted (fd : FileData) : Bool := fd.yaml_valid && fmTruthy fd.yaml_frontmatter

/-- The task info an admitted file contributes to the graph (junk on files
with no frontmatter, which are never admitted). -/
def taskOf (fd : FileData) : TaskInfo :=
  match fd.yaml_frontmatter with
  | none => mkTaskInfo fd Yaml.emptyDict
  | some y => mkTaskInfo fd y

/-- All tasks of the phase mapping, phase by phase in order: the iteration
`for phase_tasks in phases.values(): for task in phase_tasks`. -/
def allTasksOf (ph : Phases) : List TaskInfo := (ph.map Prod.snd).flatten

/-- Line 442: the resolution universe of `task_id`s over all phases. -/
def taskIds (ph : Phases) : List (Option String) :=
  (allTasksOf ph).map (fun t => t.task_id)

/-- Line 447: `not prev or prev in all_task_ids or prev.startswith('PHASE')`. -/
def prev_exists (ids : List (Option String)) (t : TaskInfo) : Bool :=
  !truthy t.previous_task || decide (t.previous_task ∈ ids) ||
    startsWithOpt t.previous_task "PHASE"

/-- Line 448: `not next or next in all_task_ids or next.startswith('P')`. -/
def next_exists (ids : List (Option String)) (t : TaskInfo) : Bool :=
  !truthy t.next_task || decide (t.next_task ∈ ids) ||
    startsWithOpt t.next_task "P"

/-- The `stats` dict of the returned workflow data. -/
structure Stats where
  total_tasks : Nat
  connected_tasks : Nat
  orphaned_tasks : Nat
  phases_count : Nat
  valid_tasks : Nat
  completion_rate : ℚ
deriving DecidableEq, Repr

/-- The dict returned by `_build_workflow_data`. -/
structure WorkflowData where
  phases : Phases
  orphaned : List TaskInfo
  stats : Stats
deriving DecidableEq, Repr

/-- `ArchitectureAnalyzer._build_workflow_data`. -/
def build_workflow_data (files_data : List FileData) : WorkflowData :=
  let acc := files_data.foldl processFile ⟨[], 0, 0⟩
  let all_task_ids := taskIds acc.phases
  let orphaned := (allTasksOf acc.phases).filter
    (fun t => !(prev_exists all_task_ids t && next_exists all_task_ids t))
  let total_tasks := (acc.phases.map (fun p => p.2.length)).sum
  { phases := acc.phases
    orphaned := orphaned
    stats := { total_tasks := total_tasks
               connected_tasks := acc.connected_tasks
               orphaned_tasks := orphaned.length
               phases_count := acc.phases.length
               valid_tasks := acc.valid_tasks
               completion_rate :=
                 if total_tasks > 0 then
                   (acc.valid_tasks : ℚ) / (total_tasks : ℚ) * 100
                 else 0 } }

/-! ### Structural lemmas about phase grouping -/

/-- Appending a task to the phase mapping permutes the task multiset by
consing the new task. -/
theorem addToPhases_perm (ph : Phases) (k : Option String) (t : TaskInfo) :
    List.Perm (allTasksOf (addToPhases ph k t)) (t :: allTasksOf ph) := by
  induction ph with
  | nil => simp [addToPhases, allTasksOf]
  | cons p ps ih =>
    by_cases h : p.1 = k
    · simp only [addToPhases, if_pos h, allTasksOf, List.map_cons, List.flatten_cons]
      rw [List.append_assoc]
      exact List.perm_middle
    · simp only [addToPhases, if_neg h, allTasksOf, List.map_cons, List.flatten_cons]
      exact (List.Perm.append_left p.2 ih).trans List.perm_middle

/-- The key list after an insertion: unchanged when the key is present,
extended by the key otherwise. -/
theorem addToPhases_keys (ph : Phases) (k : Option String) (t : TaskInfo) :
    (addToPhases ph k t).map Prod.fst =
      if k ∈ ph.map Prod.fst then ph.map Prod.fst
      else ph.map Prod.fst ++ [k] := by
  induction ph with
  | nil => simp [addToPhases]
  | cons p ps ih =>
    by_cases h : p.1 = k
    · simp [addToPhases, h]
    · have hkp : ¬k = p.1 := fun hh => h hh.symm
      rcases Decidable.em (k ∈ ps.map Prod.fst) with hm | hm
      · simp [addToPhases, if_neg h, ih, hm, List.mem_cons, hkp]
      · simp [addToPhases, if_neg h, ih, hm, List.mem_cons, hkp]

/-- Insertion preserves distinctness of phase keys. -/
theorem addToPhases_nodup (ph : Phases) (k : Option String) (t : TaskInfo)
    (h : (ph.map Prod.fst).Nodup) :
    ((addToPhases ph k t).map Prod.fst).Nodup := by
  rw [addToPhases_keys]
  split
  · exact h
  · next hk =>
    refine List.Nodup.append h (List.nodup_singleton k) ?_
    intro a ha hb
    rw [List.mem_singleton] at hb
    subst hb
    exact hk ha

/-- Insertion under the task's own phase key preserves the invariant that
every task sits in the group of its phase. -/
theorem addToPhases_phase_inv (k : Option String) (t : TaskInfo) :
    ∀ ph : Phases, (∀ p ∈ ph, ∀ x ∈ p.2, x.phase = p.1) → t.phase = k →
      ∀ p ∈ addToPhases ph k t, ∀ x ∈ p.2, x.phase = p.1 := by
  intro ph
  induction ph with
  | nil =>
    intro _ ht p hp x hx
    simp only [addToPhases, List.mem_singleton] at hp
    subst hp
    simp only [List.mem_singleton] at hx
    subst hx
    exact ht
  | cons q qs ih =>
    intro hph ht p hp x hx
    by_cases h : q.1 = k
    · simp only [addToPhases, if_pos h] at hp
      rcases List.mem_cons.1 hp with hp | hp
      · subst hp
        rcases List.mem_append.1 hx with hx | hx
        · exact hph q (List.mem_cons_self _ _) x hx
        · simp only [List.mem_singleton] at hx
          subst hx
          exact ht.trans h.symm
      · exact hph p (List.mem_cons_of_mem _ hp) x hx
    · simp only [addToPhases, if_neg h] at hp
      rcases List.mem_cons.1 hp with hp | hp
      · subst hp
        exact hph p (List.mem_cons_self _ _) x hx
      · exact ih (fun r hr => hph r (List.mem_cons_of_mem _ hr)) ht p hp x hx

/-! ### Unfolding lemmas for one loop iteration -/

/-- The task contributed by a file whose frontmatter parsed. -/
theorem taskOf_eq (fd : FileData) (y : Yaml)
    (hf : fd.yaml_frontmatter = some y) : taskOf fd = mkTaskInfo fd y := by
  unfold taskOf
  rw [hf]

/-- A file rejected by the entry filter leaves the accumulator unchanged. -/
theorem processFile_skip (acc : BuildAcc) (fd : FileData)
    (h : admitted fd = false) : processFile acc fd = acc := by
  unfold processFile
  cases hf : fd.yaml_frontmatter with
  | none => rfl
  | some y =>
    have h2 : (!fd.yaml_valid || y.isEmptyDict) = true := by
      unfold admitted fmTruthy at h
      rw [hf] at h
      cases hv : fd.yaml_valid <;> cases he : y.isEmptyDict <;>
        simp [hv, he] at h ⊢
    simp [h2]

/-- A file accepted by the entry filter contributes its task info to the
phase mapping and to both counters. -/
theorem processFile_admitted (acc : BuildAcc) (fd : FileData)
    (h : admitted fd = true) :
    processFile acc fd =
      { phases := addToPhases acc.phases (taskOf fd).phase (taskOf fd)
        valid_tasks := acc.valid_tasks + (if (taskOf fd).valid then 1 else 0)
        connected_tasks := acc.connected_tasks +
          (if truthy (taskOf fd).previous_task || truthy (taskOf fd).next_task
           then 1 else 0) } := by
  unfold processFile
  cases hf : fd.yaml_frontmatter with
  | none =>
    unfold admitted fmTruthy at h
    rw [hf] at h
    simp at h
  | some y =>
    have h2 : (!fd.yaml_valid || y.isEmptyDict) = false := by
      unfold admitted fmTruthy at h
      rw [hf] at h
      cases hv : fd.yaml_valid <;> cases he : y.isEmptyDict <;>
        simp [hv, he] at h ⊢
    rw [taskOf_eq fd y hf]
    simp [h2]

/-! ### The loop as a whole -/

/-- The tasks grouped by the loop are, up to permutation, exactly the task
infos of the admitted files in order. -/
theorem foldl_phases_perm (files : List FileData) (acc : BuildAcc) :
    List.Perm (allTasksOf (files.foldl processFile acc).phases)
      (allTasksOf acc.phases ++ (files.filter admitted).map taskOf) := by
  induction files generalizing acc with
  | nil => simp
  | cons fd fs ih =>
    rw [List.foldl_cons]
    cases hadm : admitted fd with
    | false =>
      rw [processFile_skip acc fd hadm,
        List.filter_cons_of_neg (by simp [hadm])]
      exact ih acc
    | true =>
      rw [processFile_admitted acc fd hadm,
        List.filter_cons_of_pos (by simp [hadm]), List.map_cons]
      refine (ih _).trans ?_
      have h1 := List.Perm.append_right ((fs.filter admitted).map taskOf)
        (addToPhases_perm acc.phases (taskOf fd).phase (taskOf fd))
      rw [List.cons_append] at h1
      exact h1.trans List.perm_middle.symm

/-- The `valid_tasks` counter counts the admitted tasks with a true `valid`
flag. -/
theorem foldl_valid_tasks (files : List FileData) (acc : BuildAcc) :
    (files.foldl processFile acc).valid_tasks =
      acc.valid_tasks +
        ((files.filter admitted).map taskOf).countP (fun t => t.valid) := by
  induction files generalizing acc with
  | nil => simp
  | cons fd fs ih =>
    rw [List.foldl_cons]
    cases hadm : admitted fd with
    | false =>
      rw [processFile_skip acc fd hadm,
        List.filter_cons_of_neg (by simp [hadm])]
      exact ih acc
    | true =>
      rw [processFile_admitted acc fd hadm,
        List.filter_cons_of_pos (by simp [hadm]), List.map_cons]
      rw [ih]
      cases hv : (taskOf fd).valid <;> simp [List.countP_cons, hv] <;> omega

/-- The `connected_tasks` counter counts the admitted tasks with a truthy
reference field. -/
theorem foldl_connected_tasks (files : List FileData) (acc : BuildAcc) :
    (files.foldl processFile acc).connected_tasks =
      acc.connected_tasks +
        ((files.filter admitted).map taskOf).countP
          (fun t => truthy t.previous_task || truthy t.next_task) := by
  induction files generalizing acc with
  | nil => simp
  | cons fd fs ih =>
    rw [List.foldl_cons]
    cases hadm : admitted fd with
    | false =>
      rw [processFile_skip acc fd hadm,
        List.filter_cons_of_neg (by simp [hadm])]
      exact ih acc
    | true =>
      rw [processFile_admitted acc fd hadm,
        List.filter_cons_of_pos (by simp [hadm]), List.map_cons]
      rw [ih]
      cases hc : (truthy (taskOf fd).previous_task || truthy (taskOf fd).next_task) <;>
        simp [List.countP_cons, hc] <;> omega

/-- The loop preserves distinctness of phase keys. -/
theorem foldl_phases_nodup (files : List FileData) (acc : BuildAcc)
    (h : (acc.phases.map Prod.fst).Nodup) :
    (((files.foldl processFile acc).phases).map Prod.fst).Nodup := by
  induction files generalizing acc with
  | nil => exact h
  | cons fd fs ih =>
    rw [List.foldl_cons]
    cases hadm : admitted fd with
    | false =>
      rw [processFile_skip acc fd hadm]
      exact ih acc h
    | true =>
      rw [processFile_admitted acc fd hadm]
      exact ih _ (addToPhases_nodup acc.phases _ _ h)

/-- The loop preserves the invariant that every grouped task sits in the
group keyed by its own phase. -/
theorem foldl_phase_inv (files : List FileData) (acc : BuildAcc)
    (h : ∀ p ∈ acc.phases, ∀ x ∈ p.2, x.phase = p.1) :
    ∀ p ∈ (files.foldl processFile acc).phases, ∀ x ∈ p.2, x.phase = p.1 := by
  induction files generalizing acc with
  | nil => exact h
  | cons fd fs ih =>
    rw [List.foldl_cons]
    cases hadm : admitted fd with
    | false =>
      rw [processFile_skip acc fd hadm]
      exact ih acc h
    | true =>
      rw [processFile_admitted acc fd hadm]
      exact ih _ (addToPhases_phase_inv _ _ acc.phases h rfl)

/-! ### Unfolding the built graph -/

/-- The phase mapping of the built graph is the loop's accumulator. -/
theorem build_phases (files : List FileData) :
    (build_workflow_data files).phases =
      (files.foldl processFile ⟨[], 0, 0⟩).phases := rfl

/-- The orphan list of the built graph is the filter of the second loop. -/
theorem build_orphaned (files : List FileData) :
    (build_workflow_data files).orphaned =
      (allTasksOf (build_workflow_data files).phases).filter
        (fun t => !(prev_exists (taskIds (build_workflow_data files).phases) t &&
                    next_exists (taskIds (build_workflow_data files).phases) t)) := rfl

/-- `total_tasks` is the sum of the phase-group sizes. -/
theorem build_stats_total (files : List FileData) :
    (build_workflow_data files).stats.total_tasks =
      ((build_workflow_data files).phases.map (fun p => p.2.length)).sum := rfl

/-- `valid_tasks` is the loop's counter. -/
theorem build_stats_valid (files : List FileData) :
    (build_workflow_data files).stats.valid_tasks =
      (files.foldl processFile ⟨[], 0, 0⟩).valid_tasks := rfl

/-- `connected_tasks` is the loop's counter. -/
theorem build_stats_connected (files : List FileData) :
    (build_workflow_data files).stats.connected_tasks =
      (files.foldl processFile ⟨[], 0, 0⟩).connected_tasks := rfl

/-- `orphaned_tasks` is the size of the orphan list. -/
theorem build_stats_orphaned (files : List FileData) :
    (build_workflow_data files).stats.orphaned_tasks =
      (build_workflow_data files).orphaned.length := rfl

/-- `phases_count` is the number of phase groups. -/
theorem build_stats_phases_count (files : List FileData) :
    (build_workflow_data files).stats.phases_count =
      (build_workflow_data files).phases.length := rfl

/-- `completion_rate` is the guarded division. -/
theorem build_stats_rate (files : List FileData) :
    (build_workflow_data files).stats.completion_rate =
      if (build_workflow_data files).stats.total_tasks > 0 then
        ((build_workflow_data files).stats.valid_tasks : ℚ) /
          ((build_workflow_data files).stats.total_tasks : ℚ) * 100
      else 0 := rfl

/-! ### Derived facts about the built graph -/

/-- The sum of group sizes is the number of grouped tasks. -/
theorem sum_lengths_eq (ph : Phases) :
    (ph.map (fun p => p.2.length)).sum = (allTasksOf ph).length := by
  induction ph with
  | nil => rfl
  | cons p ps ih =>
    simp only [List.map_cons, List.sum_cons, allTasksOf, List.flatten_cons,
      List.length_append] at ih ⊢
    rw [ih]

/-- The tasks of the built graph are, up to permutation, the task infos of
the admitted files. -/
theorem build_tasks_perm (files : List FileData) :
    List.Perm (allTasksOf (build_workflow_data files).phases)
      ((files.filter admitted).map taskOf) := by
  rw [build_phases]
  have h := foldl_phases_perm files ⟨[], 0, 0⟩
  simpa [allTasksOf] using h

/-- `total_tasks` counts exactly the admitted files. -/
theorem build_total_eq (files : List FileData) :
    (build_workflow_data files).stats.total_tasks =
      (files.filter admitted).length := by
  rw [build_stats_total, sum_lengths_eq, (build_tasks_perm files).length_eq,
    List.length_map]

/-- `valid_tasks` counts the admitted tasks with a true flag. -/
theorem build_valid_eq (files : List FileData) :
    (build_workflow_data files).stats.valid_tasks =
      ((files.filter admitted).map taskOf).countP (fun t => t.valid) := by
  rw [build_stats_valid]
  have h := foldl_valid_tasks files ⟨[], 0, 0⟩
  simpa using h

/-- `connected_tasks` counts the admitted tasks with a truthy reference. -/
theorem build_connected_eq (files : List FileData) :
    (build_workflow_data files).stats.connected_tasks =
      ((files.filter admitted).map taskOf).countP
        (fun t => truthy t.previous_task || truthy t.next_task) := by
  rw [build_stats_connected]
  have h := foldl_connected_tasks files ⟨[], 0, 0⟩
  simpa using h

/-- An admitted file's task info carries a true `valid` flag. -/
theorem taskOf_valid_of_admitted (fd : FileData) (h : admitted fd = true) :
    (taskOf fd).valid = true := by
  have hv : fd.yaml_valid = true := by
    unfold admitted at h
    rw [Bool.and_eq_true] at h
    exact h.1
  unfold taskOf
  cases fd.yaml_frontmatter <;> simp [mkTaskInfo, hv]

/-- Every task of the built graph has a true `valid` flag, so the valid
count equals the total count. -/
theorem build_valid_eq_total (files : List FileData) :
    (build_workflow_data files).stats.valid_tasks =
      (build_workflow_data files).stats.total_tasks := by
  rw [build_valid_eq, build_total_eq]
  have hall : ∀ t ∈ (files.filter admitted).map taskOf,
      (fun t : TaskInfo => t.valid) t = true := by
    intro t ht
    rcases List.mem_map.1 ht with ⟨fd, hfd, rfl⟩
    exact taskOf_valid_of_admitted fd (List.mem_filter.1 hfd).2
  rw [List.countP_eq_length.2 hall, List.length_map]

/-- The phase keys of the built graph are distinct. -/
theorem build_keys_nodup (files : List FileData) :
    (((build_workflow_data files).phases).map Prod.fst).Nodup := by
  rw [build_phases]
  exact foldl_phases_nodup files ⟨[], 0, 0⟩ (by simp)

/-- Every task of the built graph sits in the group keyed by its phase. -/
theorem build_phase_inv (files : List FileData) :
    ∀ p ∈ (build_workflow_data files).phases, ∀ x ∈ p.2, x.phase = p.1 := by
  rw [build_phases]
  exact foldl_phase_inv files ⟨[], 0, 0⟩ (by simp)

/-- Membership in the orphan list, unfolded. -/
theorem build_orphaned_iff (files : List FileData) (t : TaskInfo) :
    t ∈ (build_workflow_data files).orphaned ↔
      t ∈ allTasksOf (build_workflow_data files).phases ∧
        (prev_exists (taskIds (build_workflow_data files).phases) t = false ∨
         next_exists (taskIds (build_workflow_data files).phases) t = false) := by
  rw [build_orphaned, List.mem_filter]
  simp only [Bool.not_eq_true', Bool.and_eq_false_iff]

/-- In a list of keyed groups with distinct keys, a predicate that forces a
fixed key and is hit at least once is hit exactly once. -/
theorem countP_eq_one_of_nodup_keys (l : Phases) (key : Option String)
    (q : Option String × List TaskInfo → Bool)
    (hnd : (l.map Prod.fst).Nodup)
    (hq : ∀ p ∈ l, q p = true → p.1 = key)
    (hex : ∃ p ∈ l, q p = true) : l.countP q = 1 := by
  induction l with
  | nil =>
    rcases hex with ⟨p, hp, _⟩
    exact absurd hp (List.not_mem_nil p)
  | cons a as ih =>
    rw [List.countP_cons]
    simp only [List.map_cons, List.nodup_cons] at hnd
    cases hqa : q a with
    | false =>
      rcases hex with ⟨p, hp, hqp⟩
      rcases List.mem_cons.1 hp with rfl | hp2
      · rw [hqa] at hqp
        cases hqp
      · simp only [hqa, Bool.false_eq_true, if_false, Nat.add_zero]
        exact ih hnd.2 (fun p hp h => hq p (List.mem_cons_of_mem _ hp) h)
          ⟨p, hp2, hqp⟩
    | true =>
      have ha1 : a.1 = key := hq a (List.mem_cons_self _ _) hqa
      have hzero : as.countP q = 0 := by
        rw [List.countP_eq_zero]
        intro p hp hqp
        have hpk : p.1 = key := hq p (List.mem_cons_of_mem _ hp) hqp
        have hmapped : p.1 ∈ as.map Prod.fst := List.mem_map_of_mem Prod.fst hp
        rw [hpk, ← ha1] at hmapped
        exact hnd.1 hmapped
      simp [hqa, hzero]

/-- Each grouped task belongs to a group keyed by its own phase. -/
theorem mem_group_exists (files : List FileData) (t : TaskInfo)
    (ht : t ∈ allTasksOf (build_workflow_data files).phases) :
    ∃ p ∈ (build_workflow_data files).phases, p.1 = t.phase ∧ t ∈ p.2 := by
  simp only [allTasksOf, List.mem_flatten] at ht
  rcases ht with ⟨l, hl, htl⟩
  rcases List.mem_map.1 hl with ⟨p, hp, rfl⟩
  exact ⟨p, hp, (build_phase_inv files p hp t htl).symm, htl⟩

/-- Each grouped task lies in exactly one phase group. -/
theorem build_group_unique (files : List FileData) (t : TaskInfo)
    (ht : t ∈ allTasksOf (build_workflow_data files).phases) :
    ((build_workflow_data files).phases.filter
        (fun p => decide (t ∈ p.2))).length = 1 := by
  rw [← List.countP_eq_length_filter]
  refine countP_eq_one_of_nodup_keys _ t.phase _ (build_keys_nodup files) ?_ ?_
  · intro p hp hq
    exact (build_phase_inv files p hp t (of_decide_eq_true hq)).symm ▸ rfl
  · rcases mem_group_exists files t ht with ⟨p, hp, hpk, hptl⟩
    exact ⟨p, hp, decide_eq_true hptl⟩

/-! ### Concrete records used by witnesses and counterexamples -/

/-- A fully-populated valid frontmatter whose two references are both the
string "P5". -/
def yamlP5 : Yaml :=
  { phase := .str "1", step := .str "1", task := .str "Do",
    task_id := .str "T1", title := .str "Task one",
    previous_task := .str "P5", next_task := .str "P5",
    version := .str "1.0", agent := .str "a", orchestrator := .str "o" }

/-- The analysis of a file carrying `yamlP5`. -/
def fdP5 : FileData := analyze_file "t1.md" [] (some yamlP5) []

/-- Parsed frontmatter missing the required `version` field. -/
def yamlMissing : Yaml :=
  { phase := .str "1", step := .str "1", task := .str "Do",
    task_id := .str "T1", title := .str "Task one",
    previous_task := .str "", next_task := .str "",
    version := .absent, agent := .str "a", orchestrator := .str "o" }

/-- The analysis of a file carrying `yamlMissing`: parse succeeded, field
validation failed. -/
def fdMissing : FileData := analyze_file "bad.md" [] (some yamlMissing) []

/-- Valid frontmatter whose `phase` is the empty string. -/
def yamlEmptyPhase : Yaml :=
  { phase := .str "", step := .str "1", task := .str "Do",
    task_id := .str "T3", title := .str "Task three",
    previous_task := .str "", next_task := .str "",
    version := .str "1.0", agent := .str "a", orchestrator := .str "o" }

/-- The analysis of a file carrying `yamlEmptyPhase`. -/
def fdEmptyPhase : FileData := analyze_file "t3.md" [] (some yamlEmptyPhase) []

/-- Valid frontmatter with a dangling predecessor reference and an empty
successor reference. -/
def yamlDangle : Yaml :=
  { phase := .str "2", step := .str "1", task := .str "Do",
    task_id := .str "T2", title := .str "Task two",
    previous_task := .str "X99", next_task := .str "",
    version := .str "1.0", agent := .str "a", orchestrator := .str "o" }

/-- The analysis of a file carrying `yamlDangle`. -/
def fdDangle : FileData := analyze_file "t2.md" [] (some yamlDangle) []

/-- Valid frontmatter whose two references are the record's own id. -/
def yamlSelf : Yaml :=
  { phase := .str "3", step := .str "1", task := .str "Do",
    task_id := .str "T9", title := .str "Task nine",
    previous_task := .str "T9", next_task := .str "T9",
    version := .str "1.0", agent := .str "a", orchestrator := .str "o" }

/-- The analysis of a file carrying `yamlSelf`. -/
def fdSelf : FileData := analyze_file "t9.md" [] (some yamlSelf) []

/-! ### The claims -/

/-- C1 (counterexample): a record that parsed (it carries a frontmatter
record) but failed required-field validation is NOT placed in any phase
group, is not in the resolution universe, and is not counted in the
statistics — contradicting the claim that only parse failures are skipped. -/
theorem C1_counterexample :
    (fdMissing.yaml_frontmatter.isSome = true ∧
     fdMissing.yaml_valid = false) ∧
    (build_workflow_data [fdMissing]).phases = [] ∧
    (build_workflow_data [fdMissing]).stats.total_tasks = 0 ∧
    taskIds (build_workflow_data [fdMissing]).phases = [] := by decide

/-- C1 (amended): the graph contains, as a multiset, exactly the task infos
of the records with `yaml_valid = true` and truthy frontmatter — a record
failing required-field validation is skipped just like a parse failure, and
the resolution universe contains exactly the admitted task ids. -/
theorem C1_amended_participation (files : List FileData) :
    List.Perm (allTasksOf (build_workflow_data files).phases)
      ((files.filter admitted).map taskOf) ∧
    List.Perm (taskIds (build_workflow_data files).phases)
      (((files.filter admitted).map taskOf).map (fun t => t.task_id)) := by
  refine ⟨build_tasks_perm files, ?_⟩
  have h := (build_tasks_perm files).map (fun t : TaskInfo => t.task_id)
  simpa [taskIds] using h

/-- C2: for any built graph in which "P5" is not a known task id, a
successor reference "P5" is treated as resolved (it starts with "P") while
the identical predecessor reference "P5" is treated as unresolved (the
predecessor check only accepts the longer prefix "PHASE"). -/
theorem C2_prefix_asymmetry (files : List FileData) (t : TaskInfo)
    (hnotid : some "P5" ∉ taskIds (build_workflow_data files).phases) :
    (t.next_task = some "P5" →
      next_exists (taskIds (build_workflow_data files).phases) t = true) ∧
    (t.previous_task = some "P5" →
      prev_exists (taskIds (build_workflow_data files).phases) t = false) := by
  constructor
  · intro hn
    unfold next_exists
    rw [hn]
    have h1 : strStartsWith "P5" "P" = true := by decide
    simp [startsWithOpt, h1]
  · intro hp
    unfold prev_exists
    rw [hp]
    have h1 : truthy (some "P5") = true := by decide
    have h2 : strStartsWith "P5" "PHASE" = false := by decide
    simp [startsWithOpt, h1, h2, hnotid]

/-- C2 witness at a concrete record carrying "P5" in both fields. -/
theorem C2_witness :
    next_exists (taskIds (build_workflow_data [fdP5]).phases)
      (taskOf fdP5) = true ∧
    prev_exists (taskIds (build_workflow_data [fdP5]).phases)
      (taskOf fdP5) = false :=
  ⟨(C2_prefix_asymmetry [fdP5] (taskOf fdP5) (by decide)).1 (by decide),
   (C2_prefix_asymmetry [fdP5] (taskOf fdP5) (by decide)).2 (by decide)⟩

/-- C3: each record of the graph lies in exactly one phase group, and a
record is orphaned iff it is in the graph and its predecessor or successor
resolution fails; orphaned records stay in their phase group (the membership
conjunct), so `orphaned` is an auxiliary view, not a partition. -/
theorem C3_partition_and_orphan_view (files : List FileData) :
    (∀ t ∈ allTasksOf (build_workflow_data files).phases,
      ((build_workflow_data files).phases.filter
          (fun p => decide (t ∈ p.2))).length = 1) ∧
    (∀ t, t ∈ (build_workflow_data files).orphaned ↔
      t ∈ allTasksOf (build_workflow_data files).phases ∧
        (prev_exists (taskIds (build_workflow_data files).phases) t = false ∨
         next_exists (taskIds (build_workflow_data files).phases) t = false)) :=
  ⟨build_group_unique files, build_orphaned_iff files⟩

/-- C3 witness at a concrete graph and record. -/
theorem C3_witness :
    ((build_workflow_data [fdP5]).phases.filter
        (fun p => decide (taskOf fdP5 ∈ p.2))).length = 1 ∧
    (taskOf fdP5 ∈ (build_workflow_data [fdP5]).orphaned ↔
      taskOf fdP5 ∈ allTasksOf (build_workflow_data [fdP5]).phases ∧
        (prev_exists (taskIds (build_workflow_data [fdP5]).phases)
            (taskOf fdP5) = false ∨
         next_exists (taskIds (build_workflow_data [fdP5]).phases)
            (taskOf fdP5) = false)) :=
  ⟨(C3_partition_and_orphan_view [fdP5]).1 (taskOf fdP5) (by decide),
   (C3_partition_and_orphan_view [fdP5]).2 (taskOf fdP5)⟩

/-- C4 (counterexample): on an input with one record that parsed but failed
field validation, the claim's equality fails: the input minus parse failures
has one record, yet the phase-group sizes sum to zero. -/
theorem C4_counterexample :
    ([fdMissing].filter (fun fd => fd.yaml_frontmatter.isSome)).length = 1 ∧
    ((build_workflow_data [fdMissing]).phases.map (fun p => p.2.length)).sum
      = 0 ∧
    (build_workflow_data [fdMissing]).stats.total_tasks = 0 := by decide

/-- C4 (amended): the sum of the phase-group sizes — which is
`total_tasks` — equals the number of input records that pass the entry
filter: `yaml_valid` true and truthy frontmatter, excluding both parse
failures and field-validation failures. -/
theorem C4_amended_total (files : List FileData) :
    ((build_workflow_data files).phases.map (fun p => p.2.length)).sum =
      (files.filter admitted).length ∧
    (build_workflow_data files).stats.total_tasks =
      (files.filter admitted).length := by
  refine ⟨?_, build_total_eq files⟩
  rw [← build_stats_total]
  exact build_total_eq files

/-- C5 (counterexample): a valid record whose `phase` field is the empty
string is grouped under the empty-string key, not under the sentinel
"Unknown" — the build does not abort, but the claimed sentinel is wrong. -/
theorem C5_counterexample :
    fdEmptyPhase.yaml_valid = true ∧
    (build_workflow_data [fdEmptyPhase]).stats.total_tasks = 1 ∧
    (build_workflow_data [fdEmptyPhase]).phases.map Prod.fst = [some ""] ∧
    some "Unknown" ∉ (build_workflow_data [fdEmptyPhase]).phases.map Prod.fst
    := by decide

/-- C5 (amended): the build never aborts on an empty phase; an admitted
record whose `phase` field is present with the empty-string value is grouped
under the empty-string phase key (the "Unknown" sentinel applies only when
the key is absent from the frontmatter, which an admitted record cannot
exhibit since `phase` is a required field). -/
theorem C5_amended_empty_phase (files : List FileData) (fd : FileData)
    (y : Yaml) (hmem : fd ∈ files) (hadm : admitted fd = true)
    (hf : fd.yaml_frontmatter = some y) (hp : y.phase = YVal.str "") :
    ∃ p ∈ (build_workflow_data files).phases, p.1 = some "" ∧
      mkTaskInfo fd y ∈ p.2 := by
  have htask : taskOf fd = mkTaskInfo fd y := taskOf_eq fd y hf
  have hmem2 : taskOf fd ∈ allTasksOf (build_workflow_data files).phases := by
    rw [(build_tasks_perm files).mem_iff]
    exact List.mem_map_of_mem taskOf (List.mem_filter.2 ⟨hmem, hadm⟩)
  have hphase : (taskOf fd).phase = some "" := by
    rw [htask]
    simp [mkTaskInfo, hp, YVal.toGet]
  rcases mem_group_exists files (taskOf fd) hmem2 with ⟨p, hpmem, hpk, hptl⟩
  exact ⟨p, hpmem, by rw [hpk, hphase], htask ▸ hptl⟩

/-- C5 witness at the concrete empty-phase record. -/
theorem C5_witness :
    ∃ p ∈ (build_workflow_data [fdEmptyPhase]).phases, p.1 = some "" ∧
      mkTaskInfo fdEmptyPhase yamlEmptyPhase ∈ p.2 :=
  C5_amended_empty_phase [fdEmptyPhase] fdEmptyPhase yamlEmptyPhase
    (by decide) (by decide) (by decide) (by decide)

/-- C6: `connected_tasks` counts exactly the records of the graph whose
`previous_task` or `next_task` is non-empty, regardless of resolution; in
particular a graph record with a truthy but unresolvable predecessor
reference satisfies the connectivity predicate and is simultaneously
orphaned. -/
theorem C6_connected_declared (files : List FileData) :
    (build_workflow_data files).stats.connected_tasks =
      (allTasksOf (build_workflow_data files).phases).countP
        (fun t => truthy t.previous_task || truthy t.next_task) ∧
    ∀ t ∈ allTasksOf (build_workflow_data files).phases,
      truthy t.previous_task = true →
      prev_exists (taskIds (build_workflow_data files).phases) t = false →
      (truthy t.previous_task || truthy t.next_task) = true ∧
        t ∈ (build_workflow_data files).orphaned := by
  constructor
  · rw [build_connected_eq]
    exact ((build_tasks_perm files).countP_eq _).symm
  · intro t ht htr hpe
    refine ⟨by simp [htr], ?_⟩
    exact (build_orphaned_iff files t).2 ⟨ht, Or.inl hpe⟩

/-- C6 witness at a concrete record with a dangling predecessor and empty
successor. -/
theorem C6_witness :
    (truthy (taskOf fdDangle).previous_task ||
      truthy (taskOf fdDangle).next_task) = true ∧
    taskOf fdDangle ∈ (build_workflow_data [fdDangle]).orphaned :=
  (C6_connected_declared [fdDangle]).2 (taskOf fdDangle)
    (by decide) (by decide) (by decide)

/-- C7: `completion_rate` is `valid_tasks / total_tasks * 100` when
`total_tasks > 0` and exactly `0` when `total_tasks = 0`; the division is
guarded, never raised as an error. -/
theorem C7_completion_rate_guarded (files : List FileData) :
    ((build_workflow_data files).stats.total_tasks > 0 →
      (build_workflow_data files).stats.completion_rate =
        ((build_workflow_data files).stats.valid_tasks : ℚ) /
          ((build_workflow_data files).stats.total_tasks : ℚ) * 100) ∧
    ((build_workflow_data files).stats.total_tasks = 0 →
      (build_workflow_data files).stats.completion_rate = 0) := by
  constructor
  · intro h
    rw [build_stats_rate, if_pos h]
  · intro h
    rw [build_stats_rate, if_neg (by omega)]

/-- C7 witness: both arms at concrete graphs (one task; no tasks). -/
theorem C7_witness :
    (build_workflow_data [fdP5]).stats.completion_rate =
      ((build_workflow_data [fdP5]).stats.valid_tasks : ℚ) /
        ((build_workflow_data [fdP5]).stats.total_tasks : ℚ) * 100 ∧
    (build_workflow_data ([] : List FileData)).stats.completion_rate = 0 :=
  ⟨(C7_completion_rate_guarded [fdP5]).1 (by decide),
   (C7_completion_rate_guarded []).2 (by decide)⟩

/-- C8: the empty input yields an empty phase map, an empty orphan list and
all-zero statistics. -/
theorem C8_empty_input :
    (build_workflow_data ([] : List FileData)).phases = [] ∧
    (build_workflow_data ([] : List FileData)).orphaned = [] ∧
    (build_workflow_data ([] : List FileData)).stats =
      { total_tasks := 0, connected_tasks := 0, orphaned_tasks := 0,
        phases_count := 0, valid_tasks := 0, completion_rate := 0 } :=
  ⟨rfl, rfl, rfl⟩

/-- C9: a reference equal to the record's own task id always resolves —
self-reference is accepted — and a record whose dangling side is only a
self-reference on both fields is never orphaned on that account. -/
theorem C9_self_reference (files : List FileData) (t : TaskInfo)
    (ht : t ∈ allTasksOf (build_workflow_data files).phases) :
    (t.previous_task = t.task_id →
      prev_exists (taskIds (build_workflow_data files).phases) t = true) ∧
    (t.next_task = t.task_id →
      next_exists (taskIds (build_workflow_data files).phases) t = true) ∧
    (t.previous_task = t.task_id → t.next_task = t.task_id →
      t ∉ (build_workflow_data files).orphaned) := by
  have hid : t.task_id ∈ taskIds (build_workflow_data files).phases :=
    List.mem_map_of_mem _ ht
  have hprev : t.previous_task = t.task_id →
      prev_exists (taskIds (build_workflow_data files).phases) t = true := by
    intro hp
    unfold prev_exists
    rw [hp]
    simp [hid]
  have hnext : t.next_task = t.task_id →
      next_exists (taskIds (build_workflow_data files).phases) t = true := by
    intro hn
    unfold next_exists
    rw [hn]
    simp [hid]
  refine ⟨hprev, hnext, ?_⟩
  intro hp hn hmem
  rcases (build_orphaned_iff files t).1 hmem with ⟨_, hc | hc⟩
  · rw [hprev hp] at hc
    cases hc
  · rw [hnext hn] at hc
    cases hc

/-- C9 witness at a concrete self-referencing record. -/
theorem C9_witness :
    prev_exists (taskIds (build_workflow_data [fdSelf]).phases)
      (taskOf fdSelf) = true ∧
    next_exists (taskIds (build_workflow_data [fdSelf]).phases)
      (taskOf fdSelf) = true ∧
    taskOf fdSelf ∉ (build_workflow_data [fdSelf]).orphaned :=
  ⟨(C9_self_reference [fdSelf] (taskOf fdSelf) (by decide)).1 (by decide),
   (C9_self_reference [fdSelf] (taskOf fdSelf) (by decide)).2.1 (by decide),
   (C9_self_reference [fdSelf] (taskOf fdSelf) (by decide)).2.2
     (by decide) (by decide)⟩

/-- C10: in every built graph `valid_tasks = total_tasks` (the entry filter
admits only records with a true flag), so `completion_rate` is exactly 100
when `total_tasks > 0` and 0 otherwise — never an intermediate value. -/
theorem C10_valid_equals_total (files : List FileData) :
    (build_workflow_data files).stats.valid_tasks =
      (build_workflow_data files).stats.total_tasks ∧
    (build_workflow_data files).stats.completion_rate =
      (if (build_workflow_data files).stats.total_tasks > 0
       then (100 : ℚ) else 0) := by
  refine ⟨build_valid_eq_total files, ?_⟩
  rw [build_stats_rate, build_valid_eq_total files]
  by_cases h : (build_workflow_data files).stats.total_tasks > 0
  · rw [if_pos h, if_pos h]
    have hne : ((build_workflow_data files).stats.total_tasks : ℚ) ≠ 0 :=
      Nat.cast_ne_zero.2 (Nat.pos_iff_ne_zero.1 h)
    rw [div_self hne, one_mul]
  · rw [if_neg h, if_neg h]
